import Mathlib

/-!
Shallow embedding of the embedding-driven similarity graph engine of the
`miccai-2025-papers-vis` backend (`src/backend/src/services/similarity.py`,
`src/backend/src/services/tsne_service.py`, `src/backend/src/services/data_loader.py`,
data model from `src/backend/src/models/paper.py`), together with proofs that
settle the specification claims C1-C10.

Modelling decisions, stated once here and referenced from the doc comments:

* Machine floats are replaced by exact rationals (`ℚ`).  Cosine similarity
  `dot(a,b) / (‖a‖·‖b‖)` is irrational in general; the engine only ever uses
  similarity values through order comparisons (sorting, thresholding) and as
  opaque payload fields, so each similarity value is represented by its image
  under the strictly increasing bijection `x ↦ x * |x|` of `[-1, 1]` onto
  itself, which maps `dot/(√(dot a a)·√(dot b b))` to the *rational* number
  `dot a b * |dot a b| / (dot a a * dot b b)`.  The lemma
  `cosine_similarity_eq_signedSq_real` proves this representation exact, and
  `signedSq_strictMono` proves the reencoding order-faithful; `0` is a fixed
  point, so sign and zero tests are preserved verbatim.
* Python `dict`s preserve insertion order and have unique keys; they are
  modelled as association lists in insertion order, with `Nodup` hypotheses
  where key uniqueness matters.
* `list.sort(key=..., reverse=True)` is a stable descending sort; it is
  modelled by `stableSort` (a stable insertion sort) with the order reversed,
  which agrees with Timsort element-for-element on every total preorder.
* Hidden global random state (Python's `random.sample`, `np.random.normal`
  with no seeding anywhere in the repository) is made explicit as an `rng : ℕ`
  argument threaded to the draw sites; a fresh process-global generator state
  corresponds to an arbitrary `rng` value.
-/

namespace MiccaiVis

/-- An embedding vector, `np.ndarray` of floats, modelled as a list of `ℚ`. -/
abbrev Vec := List ℚ

/-- `np.dot` on equal-length float vectors (every stored vector of one corpus
has the same dimensionality; trailing entries of a longer vector are ignored,
matching `zip`-style truncation). -/
def dot : Vec → Vec → ℚ
  | [], _ => 0
  | _, [] => 0
  | a :: as, b :: bs => a * b + dot as bs

/-- `sklearn.metrics.pairwise.cosine_similarity` on two single vectors
(`similarity.py:34`).  sklearn normalizes each row, replacing a zero norm by 1
(`sklearn.preprocessing.normalize`), so a zero-norm vector yields similarity 0
rather than NaN; the guard below is that exact behaviour.  The returned number
is the signed-square reencoding `c * |c|` of the true cosine value `c`
(see the file-header notes; `cosine_similarity_eq_signedSq_real` below). -/
def cosine_similarity (a b : Vec) : ℚ :=
  if dot a a = 0 ∨ dot b b = 0 then 0
  else dot a b * |dot a b| / (dot a a * dot b b)

/-- Insert `x` into a sorted list, before the first element `y` it may
precede (`le x y`), after every earlier element. -/
def insertSorted {α : Type} (le : α → α → Bool) (x : α) : List α → List α
  | [] => [x]
  | y :: ys => if le x y then x :: y :: ys else y :: insertSorted le x ys

/-- Python's `list.sort` with a comparator key: a *stable* sort.  For a total
preorder there is exactly one stable sorted permutation of a list, so this
structurally recursive insertion sort returns, element for element, the same
list as CPython's Timsort; it is used for
`similarities.sort(key=..., reverse=True)` (`similarity.py:38`) and
`edges.sort(key=..., reverse=True)` (`similarity.py:103`) with the reversed
comparator. -/
def stableSort {α : Type} (le : α → α → Bool) : List α → List α
  | [] => []
  | x :: xs => insertSorted le x (stableSort le xs)

/-- `models/paper.py` `Author`. -/
structure Author where
  name : String
  affiliation : Option String := none
  email : Option String := none
deriving DecidableEq, Repr

/-- `models/paper.py` `ExternalLink`. -/
structure ExternalLink where
  type : String
  url : String
  description : Option String := none
deriving DecidableEq, Repr

/-- `models/paper.py` `Paper`. -/
structure Paper where
  id : String
  title : String
  abstract : String
  authors : List Author
  subject_areas : List String := []
  external_links : List ExternalLink := []
  publication_date : Option String := none
  raw_data_source : Option String := none
deriving DecidableEq, Repr

/-- `models/paper.py` `PaperSimilarity`. -/
structure PaperSimilarity where
  paper_id : String
  similarity_score : ℚ
  paper : Paper
deriving DecidableEq, Repr

/-- `models/paper.py` `GraphNode`.  `cluster` labels are the k-means label
indices, hence `ℕ` here. -/
structure GraphNode where
  id : String
  title : String
  authors : List String
  subject_areas : List String
  x : Option ℚ := none
  y : Option ℚ := none
  cluster : Option Nat := none
deriving DecidableEq, Repr

/-- `models/paper.py` `GraphEdge`. -/
structure GraphEdge where
  source : String
  target : String
  similarity : ℚ
deriving DecidableEq, Repr

/-- Two edges cover two *different unordered* id pairs: neither equal nor
swapped endpoints. -/
def distinctPair (e1 e2 : GraphEdge) : Prop :=
  ¬(e1.source = e2.source ∧ e1.target = e2.target) ∧
  ¬(e1.source = e2.target ∧ e1.target = e2.source)

/-- One entry of the `clusters` dict built by `generate_graph_data`
(`similarity.py:116-123`): id, member paper ids, centroid. -/
structure ClusterInfo where
  id : Nat
  papers : List String
  center : Vec
deriving DecidableEq, Repr

/-- `models/paper.py` `GraphData`. -/
structure GraphData where
  nodes : List GraphNode
  edges : List GraphEdge
  clusters : List ClusterInfo
deriving DecidableEq, Repr

/-- The `DataLoader`-visible corpus (`data_loader.py`): the papers reachable
from the index (in index order, as returned by `get_all_papers`) and the
embeddings dict returned by `get_all_embeddings` (id → vector, in index
order).  `get_embedding_by_id` / `get_paper_by_id` are lookups into these. -/
structure Store where
  papers : List Paper
  embeddings : List (String × Vec)
deriving DecidableEq, Repr

/-- `DataLoader.get_paper_by_id` (`data_loader.py:25`): `None` when the paper
file does not exist. -/
def get_paper_by_id (s : Store) (pid : String) : Option Paper :=
  s.papers.find? (fun p => p.id = pid)

/-- `DataLoader.get_embedding_by_id` (`data_loader.py:55`): `None` when the
embedding file does not exist. -/
def get_embedding_by_id (s : Store) (pid : String) : Option Vec :=
  (s.embeddings.find? (fun e => e.1 = pid)).map Prod.snd

/-- `SimilarityService.find_similar_papers` (`similarity.py:21-51`).
Faithful steps: missing target embedding → `[]`; cosine similarity against
every other id of the embeddings dict; stable sort descending by score
(`similarities.sort(key=..., reverse=True)`); truncate to `limit`; then drop
entries whose paper metadata is missing (`if paper:`), with no backfill. -/
def find_similar_papers (s : Store) (paper_id : String) (limit : Nat) :
    List PaperSimilarity :=
  match get_embedding_by_id s paper_id with
  | none => []
  | some target_embedding =>
    let similarities :=
      (s.embeddings.filter (fun e => e.1 ≠ paper_id)).map
        (fun e => (e.1, cosine_similarity target_embedding e.2))
    let sorted := stableSort (fun x y => y.2 ≤ x.2) similarities
    (sorted.take limit).filterMap (fun e =>
      (get_paper_by_id s e.1).map
        (fun p => { paper_id := e.1, similarity_score := e.2, paper := p }))

/-- The subject-area restriction of `generate_graph_data` (`similarity.py:58-65`).
Python's `if subject_areas:` is falsy for both `None` and `[]`, hence the
empty-list case keeps all ids. -/
def subjectFilter (s : Store) (subject_areas : Option (List String))
    (ids : List String) : List String :=
  match subject_areas with
  | none => ids
  | some areas =>
    if areas = [] then ids
    else ids.filter (fun pid =>
      match get_paper_by_id s pid with
      | some p => areas.any (fun area => area ∈ p.subject_areas)
      | none => false)

/-- `random.sample(population, k)` (`similarity.py:70`): a uniform sample of
`k` distinct positions drawn from the process-global Mersenne Twister, whose
hidden state is made explicit as `rng`.  One concrete deterministic family
with the same observable guarantees (a `Nodup`-preserving selection of `k`
members, different for different generator states): rotate by `rng mod n` and
take the first `k`. -/
def pySample (rng : Nat) (xs : List String) (k : Nat) : List String :=
  (xs.drop (rng % xs.length) ++ xs.take (rng % xs.length)).take k

/-- The sampling step of `generate_graph_data` (`similarity.py:67-70`).
`if sample_size and sample_size < len(paper_ids):` — `None` and `0` are both
falsy, and sampling happens only when `sample_size < len`. -/
def maybeSample (rng : Nat) (sample_size : Option Nat) (ids : List String) :
    List String :=
  match sample_size with
  | none => ids
  | some k => if k ≠ 0 ∧ k < ids.length then pySample rng ids k else ids

/-- The double loop of `generate_graph_data` (`similarity.py:91-100`): one
`GraphEdge` per index pair `i < j` with `similarity_matrix[i][j] > threshold`
(strict).  The `i < j` loop over the similarity matrix is written as
structural recursion on the suffix: the head is paired with every later
entry, then the loop continues on the tail. -/
def edgesFor : List (String × Vec) → ℚ → List GraphEdge
  | [], _ => []
  | e :: rest, t =>
    (rest.filterMap (fun e2 =>
      if cosine_similarity e.2 e2.2 > t then
        some { source := e.1, target := e2.1,
               similarity := cosine_similarity e.2 e2.2 }
      else none)) ++ edgesFor rest t

/-- Edge assembly of `generate_graph_data` (`similarity.py:90-104`): generate
threshold edges, sort globally descending by similarity (stable), truncate to
`max_edges`. -/
def graph_edges (vecs : List (String × Vec)) (threshold : ℚ) (max_edges : Nat) :
    List GraphEdge :=
  (stableSort (fun x y => y.similarity ≤ x.similarity)
    (edgesFor vecs threshold)).take max_edges

/-- `similarity.py:86-87`: the per-id embedding rows
`[selected_embeddings[pid] for pid in paper_ids]`.  Every `pid` reaching this
point is a key of the embeddings dict, so the `getD []` default is never hit
in the modelled code paths. -/
def vecsOf (s : Store) (ids : List String) : List (String × Vec) :=
  ids.map (fun pid => (pid, (get_embedding_by_id s pid).getD []))

/-- Squared Euclidean distance between two embedding rows. -/
def sqDist (a b : Vec) : ℚ :=
  dot (List.zipWith (fun x y => x - y) a b) (List.zipWith (fun x y => x - y) a b)

/-- Index (position) of the nearest centroid: fold carrying the best
`(index, distance)` seen so far, earlier index winning ties. -/
def nearestAux (p : Vec) : List Vec → Nat → Nat × ℚ → Nat × ℚ
  | [], _, best => best
  | c :: rest, i, best =>
    nearestAux p rest (i + 1)
      (if sqDist c p < best.2 then (i, sqDist c p) else best)

/-- Label of `p` under centroid list `cs` (0 for the degenerate empty list). -/
def nearest (p : Vec) : List Vec → Nat
  | [] => 0
  | c :: rest => (nearestAux p rest 1 (0, sqDist c p)).1

/-- Mean of a cluster's member rows; an empty cluster keeps its old centroid
`c` (sklearn relocates empty clusters; only the centroid count and the label
range matter to the claims). -/
def meanVec (vs : List Vec) (c : Vec) : Vec :=
  match vs with
  | [] => c
  | v :: rest =>
    (rest.foldl (fun acc w => List.zipWith (fun x y => x + y) acc w) v).map
      (fun x => x / ((vs.length : ℚ)))

/-- One Lloyd iteration: assign every point to its nearest centroid, then
recompute each centroid as the mean of its members. -/
def kmeansStep (points : List Vec) (cs : List Vec) : List Vec :=
  (List.range cs.length).map (fun j =>
    meanVec (points.filter (fun p => nearest p cs = j)) (cs.getD j []))

/-- Final centroids of `sklearn.cluster.KMeans(n_clusters=k, random_state=42)
.fit(points)` (`similarity.py:109-110,145-146`), modelled as deterministic
Lloyd refinement: sklearn's seeded k-means++ draw is replaced by the first
`k` rows as initial centroids, iterated to sklearn's default `max_iter=300`
cap.  Everything the claims consume — one label per point, labels ranging
over `min k (points.length)` centroids, determinism — is shared with the
library routine. -/
def kmeans_centroids (points : List Vec) (k : Nat) : List Vec :=
  Nat.iterate (kmeansStep points) 300 (points.take k)

/-- `KMeans.fit_predict` labels: nearest final centroid per point, in point
order. -/
def kmeans_labels (points : List Vec) (k : Nat) : List Nat :=
  points.map (fun p => nearest p (kmeans_centroids points k))

/-- One insertion into the `clusters` dict of `get_paper_clusters`
(`similarity.py:148-153`): append `pid` to the bucket of `label`, creating
the bucket at the end on first occurrence (Python dict insertion order). -/
def addToCluster : List (Nat × List String) → Nat → String →
    List (Nat × List String)
  | [], label, pid => [(label, [pid])]
  | (l, ms) :: rest, label, pid =>
    if l = label then (l, ms ++ [pid]) :: rest
    else (l, ms) :: addToCluster rest label pid

/-- The grouping loop of `get_paper_clusters` (`similarity.py:148-153`) over
`(label, paper_id)` pairs. -/
def groupByLabel (pairs : List (Nat × String)) : List (Nat × List String) :=
  pairs.foldl (fun acc p => addToCluster acc p.1 p.2) []

/-- `SimilarityService.get_paper_clusters` (`similarity.py:129-155`).
Cluster keys are the integer labels (the code stringifies them).  The
`embeddings_matrix.size == 0` guard fires exactly when every row is
zero-dimensional. -/
def get_paper_clusters (s : Store) (n_clusters : Nat) :
    List (Nat × List String) :=
  let paper_ids := s.embeddings.map Prod.fst
  if paper_ids.length = 0 then []
  else
    let k := if paper_ids.length < n_clusters then paper_ids.length
             else n_clusters
    let points := s.embeddings.map Prod.snd
    if points.all List.isEmpty then []
    else
      let labels := kmeans_labels points k
      groupByLabel (labels.zip paper_ids)

/-- Node assembly of `generate_graph_data` (`similarity.py:73-83`): one node
per selected id whose paper metadata exists. -/
def graph_nodes (s : Store) (ids : List String) : List GraphNode :=
  ids.filterMap (fun pid =>
    (get_paper_by_id s pid).map (fun p =>
      { id := pid, title := p.title, authors := p.authors.map (fun a => a.name),
        subject_areas := p.subject_areas }))

/-- Steps 3-6 of `generate_graph_data` (`similarity.py:72-127`), after the
candidate id list has been fixed: nodes, thresholded/sorted/truncated edges,
and — when `min 10 (n / 20) > 1` — adaptive k-means clustering that annotates
nodes positionally with labels and emits the clusters dict. -/
def graph_assemble (s : Store) (threshold : ℚ) (max_edges : Nat)
    (paper_ids : List String) : GraphData :=
  let nodes := graph_nodes s paper_ids
  let vecs := vecsOf s paper_ids
  let edges := graph_edges vecs threshold max_edges
  let n_clusters := min 10 (paper_ids.length / 20)
  if 1 < n_clusters then
    let labels := kmeans_labels (vecs.map Prod.snd) n_clusters
    let centers := kmeans_centroids (vecs.map Prod.snd) n_clusters
    { nodes := List.zipWith (fun n l => { n with cluster := some l }) nodes labels,
      edges := edges,
      clusters := (List.range n_clusters).map (fun i =>
        { id := i,
          papers := (paper_ids.zip labels).filterMap (fun pl =>
            if pl.2 = i then some pl.1 else none),
          center := centers.getD i [] }) }
  else
    { nodes := nodes, edges := edges, clusters := [] }

/-- `SimilarityService.generate_graph_data` (`similarity.py:53-127`):
filter by subject areas, sample (through the global RNG, state `rng`), then
assemble the graph. -/
def generate_graph_data (s : Store) (similarity_threshold : ℚ)
    (max_edges : Nat) (sample_size : Option Nat)
    (subject_areas : Option (List String)) (rng : Nat) : GraphData :=
  graph_assemble s similarity_threshold max_edges
    (maybeSample rng sample_size
      (subjectFilter s subject_areas (s.embeddings.map Prod.fst)))

/-- `SimilarityService.generate_network_data` (`similarity.py:243-287`):
empty `GraphData` when the target paper is missing; otherwise a star of the
top similar papers around the target. -/
def generate_network_data (s : Store) (paper_id : String) (limit : Nat) :
    GraphData :=
  match get_paper_by_id s paper_id with
  | none => { nodes := [], edges := [], clusters := [] }
  | some target =>
    let sims := find_similar_papers s paper_id limit
    { nodes :=
        { id := paper_id, title := target.title,
          authors := target.authors.map (fun a => a.name),
          subject_areas := target.subject_areas, cluster := some 0 } ::
        sims.map (fun sp =>
          { id := sp.paper_id, title := sp.paper.title,
            authors := sp.paper.authors.map (fun a => a.name),
            subject_areas := sp.paper.subject_areas, cluster := some 1 }),
      edges := sims.map (fun sp =>
        { source := paper_id, target := sp.paper_id,
          similarity := sp.similarity_score }),
      clusters := [] }

/-- The durable key→payload cache of `TSNEService` (`tsne_service.py`): the
`cache_dir` JSON files, one payload (serialized JSON text) per key, modelled
as an association list. -/
structure ResultCache where
  entries : List (String × String)
deriving DecidableEq, Repr

/-- Reading the cache file for `key` (`cache_file.exists()` + `json.load`). -/
def cacheLookup (c : ResultCache) (key : String) : Option String :=
  (c.entries.find? (fun e => e.1 = key)).map Prod.snd

/-- The memoization skeleton shared by
`TSNEService.get_similarity_network_data` (`tsne_service.py:138-164`) and
`TSNEService.get_tsne_coordinates` (`tsne_service.py:25-54`): check the cache
for `key`; on a hit return the stored payload unchanged; on a miss invoke the
compute function, persist the result under `key`, and return it.  The result
triple is `(payload, new cache state, whether computeFn was invoked)`.
The `except` branches of the code (a failed cache read falls through to
recomputation, a failed write is logged and ignored) concern file-system
faults outside the model. -/
def get_or_compute (c : ResultCache) (key : String)
    (computeFn : Unit → String) : String × ResultCache × Bool :=
  match cacheLookup c key with
  | some payload => (payload, c, false)
  | none =>
    let payload := computeFn ()
    (payload, { entries := c.entries ++ [(key, payload)] }, true)

/-- One output row of `_generate_tsne_coordinates` / the fallback
(`tsne_service.py:104-111,127-134`).  Note the record has no field flagging a
fallback result: real and fallback rows share this exact shape. -/
structure TsneCoord where
  paper_id : String
  tsne_x : ℚ
  tsne_y : ℚ
  subject_areas : List String
  title : String
  authors : List String
deriving DecidableEq, Repr

/-- One draw of `np.random.normal(0, 1)` from the *unseeded* process-global
NumPy generator (`tsne_service.py:129-130`); the hidden generator state is
the explicit `n`.  Any state-dependent family works for the claims; this one
is a concrete pseudo-random rational. -/
def pseudoNormal (n : Nat) : ℚ :=
  ((n * 37 + 11) % 101 : Nat) / 50 - 1

/-- `TSNEService._generate_fallback_coordinates` (`tsne_service.py:120-136`):
one row per paper of the corpus, with coordinates drawn from the unseeded
global generator (state `rng`, advanced per draw). -/
def fallbackAux (rng : Nat) : List Paper → Nat → List TsneCoord
  | [], _ => []
  | p :: rest, i =>
    { paper_id := p.id, tsne_x := pseudoNormal (rng + 2 * i),
      tsne_y := pseudoNormal (rng + 2 * i + 1),
      subject_areas := p.subject_areas, title := p.title,
      authors := p.authors.map (fun a => a.name) } :: fallbackAux rng rest (i + 1)

/-- `TSNEService._generate_fallback_coordinates`, entry point. -/
def fallback_coordinates (s : Store) (rng : Nat) : List TsneCoord :=
  fallbackAux rng s.papers 0

/-- `TSNEService._generate_tsne_coordinates` (`tsne_service.py:56-118`).
The `TSNE(...).fit_transform` numeric kernel is floating-point optimization
inside sklearn and is abstracted as the parameter `tsne` (mapping the
embedding rows to one 2D point per row); everything around it is translated
faithfully: collect the papers that have embeddings (in corpus order), fall
back to random coordinates when none do, otherwise emit one row per
embedded paper whose metadata lookup succeeds, indexed positionally into the
t-SNE output. -/
def generate_tsne_coordinates (tsne : List Vec → List (ℚ × ℚ)) (s : Store)
    (rng : Nat) : List TsneCoord :=
  let withEmb := s.papers.filter (fun p => (get_embedding_by_id s p.id).isSome)
  if withEmb = [] then fallback_coordinates s rng
  else
    let coords := tsne (withEmb.map (fun p => (get_embedding_by_id s p.id).getD []))
    (withEmb.zip coords).filterMap (fun pc =>
      (get_paper_by_id s pc.1.id).map (fun q =>
        { paper_id := pc.1.id, tsne_x := pc.2.1, tsne_y := pc.2.2,
          subject_areas := q.subject_areas, title := q.title,
          authors := q.authors.map (fun a => a.name) }))

/-- Shared state of two concurrent `get_tsne_coordinates` requests for the
same uncached key (`tsne_service.py:25-54`, which takes no lock): the cache
cell for that key, each thread's program counter (0 = before the cache
check, 1 = checked, 2 = returned) and the cache value it observed, and the
number of times the expensive computation has run. -/
structure HerdState where
  cache : Option String
  pc1 : Nat
  obs1 : Option String
  pc2 : Nat
  obs2 : Option String
  computes : Nat
deriving DecidableEq, Repr

/-- Both threads start before the check, cache empty, nothing computed. -/
def herdInit : HerdState :=
  { cache := none, pc1 := 0, obs1 := none, pc2 := 0, obs2 := none,
    computes := 0 }

/-- Interleaving semantics of the unguarded check-compute-write sequence of
`get_tsne_coordinates`: each thread first reads the cache, then either
returns the hit or — having observed a miss — computes (incrementing
`computes`) and writes.  No step excludes the other thread between the check
and the write, exactly as in the source, which takes no lock. -/
inductive herd_step (v : String) : HerdState → HerdState → Prop
  | check1 (s : HerdState) (h : s.pc1 = 0) :
      herd_step v s { s with pc1 := 1, obs1 := s.cache }
  | hit1 (s : HerdState) (w : String) (h : s.pc1 = 1) (hobs : s.obs1 = some w) :
      herd_step v s { s with pc1 := 2 }
  | miss1 (s : HerdState) (h : s.pc1 = 1) (hobs : s.obs1 = none) :
      herd_step v s
        { s with pc1 := 2, cache := some v, computes := s.computes + 1 }
  | check2 (s : HerdState) (h : s.pc2 = 0) :
      herd_step v s { s with pc2 := 1, obs2 := s.cache }
  | hit2 (s : HerdState) (w : String) (h : s.pc2 = 1) (hobs : s.obs2 = some w) :
      herd_step v s { s with pc2 := 2 }
  | miss2 (s : HerdState) (h : s.pc2 = 1) (hobs : s.obs2 = none) :
      herd_step v s
        { s with pc2 := 2, cache := some v, computes := s.computes + 1 }

/-- Reachability of the two-request interleaving model. -/
def herdReaches (v : String) : HerdState → HerdState → Prop :=
  Relation.ReflTransGen (herd_step v)

/-- Per-thread "still running" count: 1 until the request has returned. -/
def pendingCount (s : HerdState) : Nat :=
  (if s.pc1 = 2 then 0 else 1) + (if s.pc2 = 2 then 0 else 1)

/-! ### Concrete corpora and constants used by counterexamples and witnesses -/

def idA : String := "A"

def idB : String := "B"

def idC : String := "C"

def keyK : String := "k"

def strV : String := "v"

def strW : String := "w"

def pA : Paper := { id := "A", title := "paper A", abstract := "", authors := [] }

def pB : Paper := { id := "B", title := "paper B", abstract := "", authors := [] }

def pC : Paper := { id := "C", title := "paper C", abstract := "", authors := [] }

/-- Target `A` with one candidate `B` of cosine similarity `-1`. -/
def sNeg : Store :=
  { papers := [pA, pB], embeddings := [("A", [1]), ("B", [-1])] }

/-- Target `A` with two candidates tied at similarity `0`, stored in
descending id order `C` before `B`. -/
def sTie : Store :=
  { papers := [pA, pB, pC],
    embeddings := [("A", [1, 0]), ("C", [0, 1]), ("B", [0, 1])] }

/-- Three fully-populated one-dimensional documents. -/
def sThree : Store :=
  { papers := [pA, pB, pC],
    embeddings := [("A", [1]), ("B", [1]), ("C", [1])] }

/-- Paper metadata for `A` exists, but `A` has no embedding. -/
def sMissTarget : Store :=
  { papers := [pA, pB], embeddings := [("B", [1])] }

/-- `A` is present with an embedding and is the only document. -/
def sOnlyA : Store :=
  { papers := [pA], embeddings := [("A", [1])] }

/-- An entirely empty corpus. -/
def sNone : Store := { papers := [], embeddings := [] }

/-- Papers `A` and `B`, but only `A` has an embedding. -/
def sNoEmbB : Store :=
  { papers := [pA, pB], embeddings := [("A", [1])] }

/-- One paper, no embeddings at all (forces the t-SNE fallback path). -/
def sNoEmbAll : Store := { papers := [pA], embeddings := [] }

/-- Target `A` whose embedding is the zero vector. -/
def sZero : Store :=
  { papers := [pA, pB], embeddings := [("A", [0, 0]), ("B", [1, 0])] }

/-- Candidate `B` (highest similarity to `A`) has an embedding but no paper
metadata; candidate `C` has both. -/
def sTrunc : Store :=
  { papers := [pA, pC],
    embeddings := [("A", [1, 0]), ("B", [1, 0]), ("C", [1, 1])] }

/-- A cache already holding payload `"v"` under key `"k"`. -/
def cacheKV : ResultCache := { entries := [("k", "v")] }

/-- A degenerate but length-preserving stand-in for the abstracted
`TSNE().fit_transform` kernel: every row is mapped to the origin. -/
def tsneZero : List Vec → List (ℚ × ℚ) :=
  fun l => l.map (fun _ => (0, 0))

/-! ### Faithfulness of the rational similarity representation -/

/-- The strictly increasing reencoding `x ↦ x * |x|` (see file header). -/
def signedSq (x : ℝ) : ℝ := x * |x|

/-- The mathematical cosine similarity `dot/(‖a‖·‖b‖)` with sklearn's
zero-norm guard, over the reals. -/
noncomputable def cosineReal (a b : Vec) : ℝ :=
  if dot a a = 0 ∨ dot b b = 0 then 0
  else (dot a b : ℝ) / (Real.sqrt ((dot a a : ℚ)) * Real.sqrt ((dot b b : ℚ)))

theorem dot_self_nonneg (a : Vec) : 0 ≤ dot a a := by
  induction a with
  | nil => simp [dot]
  | cons x xs ih =>
    have hx : (0 : ℚ) ≤ x * x := mul_self_nonneg x
    simpa [dot] using add_nonneg hx ih

theorem signedSq_strictMono : StrictMono signedSq := by
  intro x y hxy
  unfold signedSq
  rcases le_or_lt 0 x with hx | hx
  · rw [abs_of_nonneg hx, abs_of_pos (lt_of_le_of_lt hx hxy)]
    exact mul_self_lt_mul_self hx hxy
  · rcases le_or_lt 0 y with hy | hy
    · have h1 : x * |x| < 0 := mul_neg_of_neg_of_pos hx (abs_pos.mpr (ne_of_lt hx))
      have h2 : 0 ≤ y * |y| := mul_nonneg hy (abs_nonneg y)
      linarith
    · rw [abs_of_neg hx, abs_of_neg hy]
      have h3 : -x * -x > -y * -y :=
        mul_self_lt_mul_self (by linarith) (by linarith)
      nlinarith

/-- The computable `cosine_similarity` is exactly the signed-square
reencoding of the true real cosine similarity: the rational score stored in
every result is order- and sign-faithful to the float score of the source. -/
theorem cosine_similarity_eq_signedSq_real (a b : Vec) :
    ((cosine_similarity a b : ℚ) : ℝ) = signedSq (cosineReal a b) := by
  unfold cosine_similarity cosineReal
  by_cases hz : dot a a = 0 ∨ dot b b = 0
  · simp [hz, signedSq]
  · push_neg at hz
    obtain ⟨ha, hb⟩ := hz
    have ha' : (0 : ℝ) < ((dot a a : ℚ) : ℝ) := by
      exact_mod_cast lt_of_le_of_ne (dot_self_nonneg a) (Ne.symm ha)
    have hb' : (0 : ℝ) < ((dot b b : ℚ) : ℝ) := by
      exact_mod_cast lt_of_le_of_ne (dot_self_nonneg b) (Ne.symm hb)
    have hsa : (0 : ℝ) < Real.sqrt ((dot a a : ℚ)) := Real.sqrt_pos.mpr ha'
    have hsb : (0 : ℝ) < Real.sqrt ((dot b b : ℚ)) := Real.sqrt_pos.mpr hb'
    have hp : (0 : ℝ) < Real.sqrt ((dot a a : ℚ)) * Real.sqrt ((dot b b : ℚ)) :=
      mul_pos hsa hsb
    have hcond : ¬(dot a a = 0 ∨ dot b b = 0) := by
      rintro (h | h)
      · exact ha h
      · exact hb h
    simp only [if_neg hcond]
    unfold signedSq
    rw [abs_div, abs_of_pos hp, div_mul_div_comm]
    have hpp : Real.sqrt ((dot a a : ℚ)) * Real.sqrt ((dot b b : ℚ)) *
        (Real.sqrt ((dot a a : ℚ)) * Real.sqrt ((dot b b : ℚ))) =
        ((dot a a : ℚ) : ℝ) * ((dot b b : ℚ) : ℝ) := by
      have h1 := Real.mul_self_sqrt (le_of_lt ha')
      have h2 := Real.mul_self_sqrt (le_of_lt hb')
      ring_nf
      nlinarith [h1, h2]
    rw [hpp]
    push_cast
    ring

/-! ### Sorting and arithmetic helper lemmas -/

theorem insertSorted_perm {α : Type} (le : α → α → Bool) (x : α) (l : List α) :
    (insertSorted le x l).Perm (x :: l) := by
  induction l with
  | nil => simp [insertSorted]
  | cons y ys ih =>
    cases h : le x y with
    | true => simp [insertSorted, h]
    | false =>
      simp only [insertSorted, h, Bool.false_eq_true, if_false]
      exact (ih.cons y).trans (List.Perm.swap x y ys)

theorem stableSort_perm {α : Type} (le : α → α → Bool) (l : List α) :
    (stableSort le l).Perm l := by
  induction l with
  | nil => simp [stableSort]
  | cons x xs ih =>
    exact (insertSorted_perm le x (stableSort le xs)).trans (ih.cons x)

theorem pairwise_insertSorted {α : Type} {le : α → α → Bool}
    (htrans : ∀ a b c, le a b = true → le b c = true → le a c = true)
    (htot : ∀ a b, le a b = true ∨ le b a = true) (x : α) {l : List α}
    (hl : l.Pairwise (fun a b => le a b = true)) :
    (insertSorted le x l).Pairwise (fun a b => le a b = true) := by
  induction l with
  | nil => simp [insertSorted]
  | cons y ys ih =>
    cases h : le x y with
    | true =>
      simp only [insertSorted, h, if_true]
      constructor
      · intro z hz
        rcases List.mem_cons.mp hz with rfl | hz
        · exact h
        · exact htrans x y z h (List.rel_of_pairwise_cons hl hz)
      · exact hl
    | false =>
      simp only [insertSorted, h, Bool.false_eq_true, if_false]
      constructor
      · intro z hz
        have hz' : z ∈ x :: ys := (insertSorted_perm le x ys).mem_iff.mp hz
        rcases List.mem_cons.mp hz' with hzx | hz'
        · subst hzx
          rcases htot z y with hxy | hyx
          · rw [h] at hxy
            exact absurd hxy (by simp)
          · exact hyx
        · exact List.rel_of_pairwise_cons hl hz'
      · exact ih (List.Pairwise.of_cons hl)

theorem pairwise_stableSort {α : Type} {le : α → α → Bool}
    (htrans : ∀ a b c, le a b = true → le b c = true → le a c = true)
    (htot : ∀ a b, le a b = true ∨ le b a = true) (l : List α) :
    (stableSort le l).Pairwise (fun a b => le a b = true) := by
  induction l with
  | nil => simp [stableSort]
  | cons x xs ih => exact pairwise_insertSorted htrans htot x ih

/-- Descending sortedness by a rational key, for the reversed comparator used
in the model of `list.sort(key=..., reverse=True)`. -/
theorem pairwise_stableSort_key {α : Type} (key : α → ℚ) (l : List α) :
    (stableSort (fun a b => decide (key b ≤ key a)) l).Pairwise
      (fun a b => key b ≤ key a) := by
  have h := @pairwise_stableSort _ (fun a b => decide (key b ≤ key a))
    (fun a b c h1 h2 => by
      simp only [decide_eq_true_eq] at *
      exact le_trans h2 h1)
    (fun a b => by
      simp only [decide_eq_true_eq]
      exact le_total (key b) (key a)) l
  exact h.imp (fun hab => by simpa using hab)

theorem dot_zero_of_left_zero {a : Vec} (h : ∀ x ∈ a, x = 0) (b : Vec) :
    dot a b = 0 := by
  induction a generalizing b with
  | nil => cases b <;> simp [dot]
  | cons x xs ih =>
    cases b with
    | nil => simp [dot]
    | cons y ys =>
      have hx : x = 0 := h x (by simp)
      have hxs : ∀ z ∈ xs, z = 0 := fun z hz => h z (by simp [hz])
      simp [dot, hx, ih hxs]

theorem dot_zero_of_right_zero (a : Vec) {b : Vec} (h : ∀ x ∈ b, x = 0) :
    dot a b = 0 := by
  induction a generalizing b with
  | nil => cases b <;> simp [dot]
  | cons x xs ih =>
    cases b with
    | nil => simp [dot]
    | cons y ys =>
      have hy : y = 0 := h y (by simp)
      have hys : ∀ z ∈ ys, z = 0 := fun z hz => h z (by simp [hz])
      simp [dot, hy, ih hys]

/-- Zero-norm guard of `cosine_similarity`, both sides. -/
theorem cosine_similarity_zero_left {a : Vec} (h : ∀ x ∈ a, x = 0) (b : Vec) :
    cosine_similarity a b = 0 ∧ cosine_similarity b a = 0 := by
  have ha : dot a a = 0 := dot_zero_of_left_zero h a
  constructor
  · simp [cosine_similarity, ha]
  · simp [cosine_similarity, ha]

/-- Unfolding of `find_similar_papers` when the target embedding is present. -/
theorem find_similar_papers_eq (s : Store) (pid : String) (k : Nat) (tv : Vec)
    (h : get_embedding_by_id s pid = some tv) :
    find_similar_papers s pid k =
      ((stableSort (fun x y => y.2 ≤ x.2)
        ((s.embeddings.filter (fun e => e.1 ≠ pid)).map
          (fun e => (e.1, cosine_similarity tv e.2)))).take k).filterMap
        (fun e => (get_paper_by_id s e.1).map
          (fun p => { paper_id := e.1, similarity_score := e.2, paper := p })) := by
  unfold find_similar_papers
  rw [h]

/-- Unfolding of `find_similar_papers` when the target embedding is absent. -/
theorem find_similar_papers_none (s : Store) (pid : String) (k : Nat)
    (h : get_embedding_by_id s pid = none) :
    find_similar_papers s pid k = [] := by
  unfold find_similar_papers
  rw [h]

/-! ### C1 — `find_similar_papers` top-k contract -/

/-- Claim C1, counterexample.  The claim says `topK` returns only entries with
`score >= minScore` (default `minScore = 0` per the spec) with ties broken by
ascending id.  The code has no `minScore` parameter at all: on `sNeg` the
single returned candidate has score `-1 < 0`.  And ties are kept in the
embedding store's insertion order by the stable sort, not re-ordered by id:
on `sTie` the two candidates tie at score `0` and come back as `C` before
`B`, i.e. in *descending* id order. -/
theorem find_similar_papers_minScore_tie_cx :
    (find_similar_papers sNeg idA 5).map
      (fun r => (r.paper_id, r.similarity_score)) = [(idB, -1)] ∧
    ((-1 : ℚ) < 0) ∧
    (find_similar_papers sTie idA 2).map
      (fun r => (r.paper_id, r.similarity_score)) = [(idC, 0), (idB, 0)] := by
  refine ⟨?_, by norm_num, ?_⟩
  · norm_num [find_similar_papers, get_embedding_by_id, get_paper_by_id, sNeg,
      idA, idB, cosine_similarity, dot, stableSort, insertSorted, pA, pB,
      List.filterMap_cons, List.find?_cons]
    simp
  · norm_num [find_similar_papers, get_embedding_by_id, get_paper_by_id, sTie,
      idA, idB, idC, cosine_similarity, dot, stableSort, insertSorted, pA, pB,
      pC, List.filterMap_cons, List.find?_cons]
    simp

/-- Claim C1, amended.  For every store, target and `k`, `find_similar_papers`
returns at most `k` entries, never returns the target itself, and is sorted
descending by similarity score (ties keep the embedding store's enumeration
order under the stable sort); there is no minimum-score filtering. -/
theorem find_similar_papers_spec (s : Store) (pid : String) (k : Nat) :
    (find_similar_papers s pid k).length ≤ k ∧
    (∀ r ∈ find_similar_papers s pid k, r.paper_id ≠ pid) ∧
    (find_similar_papers s pid k).Pairwise
      (fun r1 r2 => r2.similarity_score ≤ r1.similarity_score) := by
  cases hemb : get_embedding_by_id s pid with
  | none => simp [find_similar_papers_none s pid k hemb]
  | some tv =>
    rw [find_similar_papers_eq s pid k tv hemb]
    refine ⟨?_, ?_, ?_⟩
    · exact le_trans (List.length_filterMap_le _ _)
        (le_trans (List.length_take_le _ _) le_rfl)
    · intro r hr
      obtain ⟨e, he, hge⟩ := List.mem_filterMap.mp hr
      obtain ⟨p, _, hp⟩ := Option.map_eq_some'.mp hge
      have hid : r.paper_id = e.1 := by rw [← hp]
      have he2 : e ∈ (s.embeddings.filter (fun e => e.1 ≠ pid)).map
          (fun e => (e.1, cosine_similarity tv e.2)) :=
        (stableSort_perm _ _).mem_iff.mp (List.mem_of_mem_take he)
      obtain ⟨x, hx, hxe⟩ := List.mem_map.mp he2
      have hx1 : x.1 ≠ pid := by
        have := (List.mem_filter.mp hx).2
        simpa using this
      rw [hid, ← hxe]
      exact hx1
    · rw [List.pairwise_filterMap]
      have hsorted := pairwise_stableSort_key (fun e : String × ℚ => e.2)
        ((s.embeddings.filter (fun e => e.1 ≠ pid)).map
          (fun e => (e.1, cosine_similarity tv e.2)))
      have htake := hsorted.sublist (List.take_sublist k _)
      refine htake.imp ?_
      intro a b hab r1 hr1 r2 hr2
      obtain ⟨p1, _, hp1⟩ := Option.map_eq_some'.mp hr1
      obtain ⟨p2, _, hp2⟩ := Option.map_eq_some'.mp hr2
      rw [← hp1, ← hp2]
      exact hab

/-- Claim C1, amended, witness.  The bound and exclusion instantiated on the
three-document corpus. -/
theorem find_similar_papers_spec_witness :
    (find_similar_papers sThree idA 2).length ≤ 2 ∧
    (∀ r ∈ find_similar_papers sThree idA 2, r.paper_id ≠ idA) :=
  ⟨(find_similar_papers_spec sThree idA 2).1,
    (find_similar_papers_spec sThree idA 2).2.1⟩

/-! ### C2 — graph edge invariants -/

theorem distinctPair_symm {e1 e2 : GraphEdge} (h : distinctPair e1 e2) :
    distinctPair e2 e1 := by
  obtain ⟨h1, h2⟩ := h
  exact ⟨fun ⟨a, b⟩ => h1 ⟨a.symm, b.symm⟩, fun ⟨a, b⟩ => h2 ⟨b.symm, a.symm⟩⟩

theorem mem_ite_option {α : Type} {c : Prop} [Decidable c] {x e : α}
    (h : e ∈ (if c then some x else none)) : c ∧ e = x := by
  split at h
  · exact ⟨by assumption, ((by simpa using h : x = e)).symm⟩
  · simp at h

theorem mem_edgesFor {l : List (String × Vec)} {t : ℚ} {e : GraphEdge}
    (he : e ∈ edgesFor l t) :
    t < e.similarity ∧ e.source ∈ l.map Prod.fst ∧
      e.target ∈ l.map Prod.fst := by
  induction l with
  | nil => simp [edgesFor] at he
  | cons p rest ih =>
    simp only [edgesFor, List.mem_append] at he
    rcases he with he | he
    · obtain ⟨q, hq, hqe⟩ := List.mem_filterMap.mp he
      obtain ⟨hc, rfl⟩ := mem_ite_option (Option.mem_def.mpr hqe)
      refine ⟨hc, by simp, ?_⟩
      simp only [List.map_cons, List.mem_cons]
      exact Or.inr (List.mem_map.mpr ⟨q, hq, rfl⟩)
    · obtain ⟨h1, h2, h3⟩ := ih he
      exact ⟨h1, by simp [h2], by simp [h3]⟩

theorem edgesFor_ne_pairwise {l : List (String × Vec)} {t : ℚ}
    (hnd : (l.map Prod.fst).Nodup) :
    (∀ e ∈ edgesFor l t, e.source ≠ e.target) ∧
    (edgesFor l t).Pairwise distinctPair := by
  induction l with
  | nil => simp [edgesFor]
  | cons p rest ih =>
    simp only [List.map_cons, List.nodup_cons] at hnd
    obtain ⟨hp, hrest⟩ := hnd
    obtain ⟨ihne, ihpw⟩ := ih hrest
    constructor
    · intro e he
      simp only [edgesFor, List.mem_append] at he
      rcases he with he | he
      · obtain ⟨q, hq, hqe⟩ := List.mem_filterMap.mp he
        obtain ⟨_, rfl⟩ := mem_ite_option (Option.mem_def.mpr hqe)
        intro hcontra
        dsimp at hcontra
        refine hp ?_
        rw [hcontra]
        exact List.mem_map.mpr ⟨q, hq, rfl⟩
      · exact ihne e he
    · simp only [edgesFor]
      rw [List.pairwise_append]
      refine ⟨?_, ihpw, ?_⟩
      · rw [List.pairwise_filterMap]
        have hpw : rest.Pairwise (fun q1 q2 => q1.1 ≠ q2.1) := by
          have := List.pairwise_map.mp hrest
          exact this
        refine List.Pairwise.imp_of_mem ?_ hpw
        intro q1 q2 hq1 hq2 hq e1 he1 e2 he2
        obtain ⟨_, rfl⟩ := mem_ite_option he1
        obtain ⟨_, rfl⟩ := mem_ite_option he2
        constructor
        · rintro ⟨_, htgt⟩
          exact hq htgt
        · rintro ⟨hsrc, _⟩
          dsimp at hsrc
          refine hp ?_
          rw [hsrc]
          exact List.mem_map.mpr ⟨q2, hq2, rfl⟩
      · intro e1 he1 e2 he2
        obtain ⟨q, hq, hqe⟩ := List.mem_filterMap.mp he1
        obtain ⟨_, rfl⟩ := mem_ite_option (Option.mem_def.mpr hqe)
        obtain ⟨_, hsrc2, htgt2⟩ := mem_edgesFor he2
        constructor
        · rintro ⟨hsrc, _⟩
          dsimp at hsrc
          refine hp ?_
          rw [hsrc]
          exact hsrc2
        · rintro ⟨hsrc, _⟩
          dsimp at hsrc
          refine hp ?_
          rw [hsrc]
          exact htgt2

theorem subjectFilter_nodup (s : Store) (ar : Option (List String))
    {ids : List String} (h : ids.Nodup) : (subjectFilter s ar ids).Nodup := by
  rcases ar with _ | areas
  · exact h
  · simp only [subjectFilter]
    by_cases ha : areas = []
    · rw [if_pos ha]
      exact h
    · rw [if_neg ha]
      exact h.filter _

theorem pySample_nodup (rng : Nat) {ids : List String} (k : Nat)
    (h : ids.Nodup) : (pySample rng ids k).Nodup := by
  unfold pySample
  have hperm : (ids.drop (rng % ids.length) ++
      ids.take (rng % ids.length)).Perm ids := by
    refine List.perm_append_comm.trans ?_
    rw [List.take_append_drop]
  exact List.Nodup.sublist (List.take_sublist _ _) (hperm.symm.nodup h)

theorem maybeSample_nodup (rng : Nat) (ss : Option Nat) {ids : List String}
    (h : ids.Nodup) : (maybeSample rng ss ids).Nodup := by
  rcases ss with _ | k
  · exact h
  · simp only [maybeSample]
    by_cases hk : k ≠ 0 ∧ k < ids.length
    · rw [if_pos hk]
      exact pySample_nodup rng k h
    · rw [if_neg hk]
      exact h

theorem vecsOf_map_fst (s : Store) (ids : List String) :
    (vecsOf s ids).map Prod.fst = ids := by
  unfold vecsOf
  rw [List.map_map]
  exact List.map_id ids

theorem graph_assemble_edges (s : Store) (t : ℚ) (m : Nat)
    (ids : List String) :
    (graph_assemble s t m ids).edges = graph_edges (vecsOf s ids) t m := by
  simp only [graph_assemble]
  by_cases h : 1 < min 10 (ids.length / 20)
  · rw [if_pos h]
  · rw [if_neg h]

/-- Everything C2 needs about `graph_edges` on a key-distinct row list. -/
theorem graph_edges_spec {vecs : List (String × Vec)} (t : ℚ) (m : Nat)
    (hnd : (vecs.map Prod.fst).Nodup) :
    (graph_edges vecs t m).length ≤ m ∧
    (∀ e ∈ graph_edges vecs t m, e.source ≠ e.target ∧ t < e.similarity) ∧
    (graph_edges vecs t m).Pairwise distinctPair ∧
    (graph_edges vecs t m).Pairwise
      (fun e1 e2 => e2.similarity ≤ e1.similarity) := by
  obtain ⟨hne, hpw⟩ := edgesFor_ne_pairwise (l := vecs) (t := t) hnd
  refine ⟨?_, ?_, ?_, ?_⟩
  · unfold graph_edges
    exact List.length_take_le m _
  · intro e he
    have he' : e ∈ edgesFor vecs t :=
      (stableSort_perm _ _).mem_iff.mp (List.mem_of_mem_take he)
    exact ⟨hne e he', (mem_edgesFor he').1⟩
  · unfold graph_edges
    refine List.Pairwise.sublist (List.take_sublist m _) ?_
    have hsym : ∀ {a b : GraphEdge}, distinctPair a b → distinctPair b a :=
      fun h => distinctPair_symm h
    exact ((stableSort_perm _ _).pairwise_iff hsym).mpr hpw
  · unfold graph_edges
    exact List.Pairwise.sublist (List.take_sublist m _)
      (pairwise_stableSort_key (fun e : GraphEdge => e.similarity) _)

/-- Claim C2.  For every store with distinct ids and every parameter set, the
edge list of `generate_graph_data` has no self-edge, at most one edge per
unordered id pair (pairs are emitted only for `i < j`), only edges with
score strictly above the threshold, sorted globally descending, and at most
`max_edges` entries. -/
theorem generate_graph_data_edge_invariants (s : Store) (t : ℚ) (m : Nat)
    (ss : Option Nat) (ar : Option (List String)) (rng : Nat)
    (hnd : (s.embeddings.map Prod.fst).Nodup) :
    (generate_graph_data s t m ss ar rng).edges.length ≤ m ∧
    (∀ e ∈ (generate_graph_data s t m ss ar rng).edges,
        e.source ≠ e.target ∧ t < e.similarity) ∧
    (generate_graph_data s t m ss ar rng).edges.Pairwise distinctPair ∧
    (generate_graph_data s t m ss ar rng).edges.Pairwise
      (fun e1 e2 => e2.similarity ≤ e1.similarity) := by
  unfold generate_graph_data
  rw [graph_assemble_edges]
  refine graph_edges_spec t m ?_
  rw [vecsOf_map_fst]
  exact maybeSample_nodup rng ss (subjectFilter_nodup s ar hnd)

/-- Claim C2, witness.  The invariants instantiated on the three-document
corpus with sampling and a tight edge budget. -/
theorem generate_graph_data_edge_invariants_witness :
    (sThree.embeddings.map Prod.fst).Nodup ∧
    (generate_graph_data sThree 2 5 (some 2) none 0).edges.length ≤ 5 :=
  ⟨by decide,
    (generate_graph_data_edge_invariants sThree 2 5 (some 2) none 0
      (by decide)).1⟩

/-! ### C3 — clustering is an exact partition -/

theorem nearestAux_lt (p : Vec) :
    ∀ (cs : List Vec) (i : Nat) (best : Nat × ℚ), best.1 < i →
      (nearestAux p cs i best).1 < i + cs.length := by
  intro cs
  induction cs with
  | nil =>
    intro i best h
    simp only [nearestAux, List.length_nil]
    omega
  | cons c rest ih =>
    intro i best h
    simp only [nearestAux, List.length_cons]
    have hb : (if sqDist c p < best.2 then (i, sqDist c p) else best).1 < i + 1 := by
      split
      · simp
      · omega
    have := ih (i + 1) _ hb
    omega

theorem nearest_lt (p : Vec) {cs : List Vec} (h : cs ≠ []) :
    nearest p cs < cs.length := by
  cases cs with
  | nil => exact absurd rfl h
  | cons c rest =>
    have := nearestAux_lt p rest 1 (0, sqDist c p) (by omega)
    simp only [nearest, List.length_cons]
    omega

theorem kmeans_centroids_length (points : List Vec) (k : Nat) :
    (kmeans_centroids points k).length = min k points.length := by
  unfold kmeans_centroids
  have hiter : ∀ (n : Nat) (cs : List Vec),
      (Nat.iterate (kmeansStep points) n cs).length = cs.length := by
    intro n
    induction n with
    | zero => intro cs; rfl
    | succ n ih =>
      intro cs
      rw [Function.iterate_succ_apply, ih]
      simp [kmeansStep]
  rw [hiter]
  simp [List.length_take]

theorem kmeans_labels_length (points : List Vec) (k : Nat) :
    (kmeans_labels points k).length = points.length := by
  simp [kmeans_labels]

theorem kmeans_labels_lt (points : List Vec) (k : Nat) (hk : 1 ≤ k)
    (hp : points ≠ []) :
    ∀ lab ∈ kmeans_labels points k, lab < min k points.length := by
  intro lab hlab
  unfold kmeans_labels at hlab
  obtain ⟨p, _, rfl⟩ := List.mem_map.mp hlab
  have hlen := kmeans_centroids_length points k
  have hpos : 0 < points.length := List.length_pos.mpr hp
  have hne : kmeans_centroids points k ≠ [] := by
    intro h0
    rw [h0] at hlen
    simp only [List.length_nil] at hlen
    omega
  have := nearest_lt p hne
  rw [hlen] at this
  exact this

theorem addToCluster_flatten_perm (acc : List (Nat × List String)) (lab : Nat)
    (pid : String) :
    ((addToCluster acc lab pid).flatMap Prod.snd).Perm
      (acc.flatMap Prod.snd ++ [pid]) := by
  induction acc with
  | nil => simp [addToCluster]
  | cons c rest ih =>
    obtain ⟨l, ms⟩ := c
    simp only [addToCluster]
    by_cases h : l = lab
    · rw [if_pos h]
      simp only [List.flatMap_cons]
      rw [List.append_assoc, List.append_assoc]
      exact List.Perm.append_left ms List.perm_append_comm
    · rw [if_neg h]
      simp only [List.flatMap_cons]
      rw [List.append_assoc]
      exact List.Perm.append_left ms ih

theorem groupFold_flatten_perm (pairs : List (Nat × String)) :
    ∀ acc : List (Nat × List String),
      ((pairs.foldl (fun acc p => addToCluster acc p.1 p.2) acc).flatMap
        Prod.snd).Perm (acc.flatMap Prod.snd ++ pairs.map Prod.snd) := by
  induction pairs with
  | nil =>
    intro acc
    simp
  | cons p ps ih =>
    intro acc
    simp only [List.foldl_cons, List.map_cons]
    refine (ih (addToCluster acc p.1 p.2)).trans ?_
    have h := (addToCluster_flatten_perm acc p.1 p.2).append_right
      (ps.map Prod.snd)
    refine h.trans ?_
    rw [List.append_assoc]
    simp

theorem groupByLabel_flatten_perm (pairs : List (Nat × String)) :
    ((groupByLabel pairs).flatMap Prod.snd).Perm (pairs.map Prod.snd) := by
  have := groupFold_flatten_perm pairs []
  simpa [groupByLabel] using this

theorem addToCluster_keys_sub (acc : List (Nat × List String)) (lab : Nat)
    (pid : String) :
    ∀ x ∈ (addToCluster acc lab pid).map Prod.fst,
      x ∈ acc.map Prod.fst ∨ x = lab := by
  induction acc with
  | nil =>
    intro x hx
    simp [addToCluster] at hx
    exact Or.inr hx
  | cons c rest ih =>
    obtain ⟨l, ms⟩ := c
    intro x hx
    simp only [addToCluster] at hx
    by_cases h : l = lab
    · rw [if_pos h] at hx
      simp only [List.map_cons, List.mem_cons] at hx
      rcases hx with hx | hx
      · exact Or.inl (by simp [hx])
      · exact Or.inl (by simp [hx])
    · rw [if_neg h] at hx
      simp only [List.map_cons, List.mem_cons] at hx
      rcases hx with hx | hx
      · exact Or.inl (by simp [hx])
      · rcases ih x hx with hx' | hx'
        · exact Or.inl (by simp [hx'])
        · exact Or.inr hx'

theorem addToCluster_keys_nodup (acc : List (Nat × List String)) (lab : Nat)
    (pid : String) (h : (acc.map Prod.fst).Nodup) :
    ((addToCluster acc lab pid).map Prod.fst).Nodup := by
  induction acc with
  | nil => simp [addToCluster]
  | cons c rest ih =>
    obtain ⟨l, ms⟩ := c
    simp only [List.map_cons, List.nodup_cons] at h
    obtain ⟨hl, hrest⟩ := h
    simp only [addToCluster]
    by_cases hc : l = lab
    · rw [if_pos hc]
      simp only [List.map_cons, List.nodup_cons]
      exact ⟨hl, hrest⟩
    · rw [if_neg hc]
      simp only [List.map_cons, List.nodup_cons]
      refine ⟨?_, ih hrest⟩
      intro hmem
      rcases addToCluster_keys_sub rest lab pid l hmem with h' | h'
      · exact hl h'
      · exact hc h'

theorem groupFold_keys (pairs : List (Nat × String)) :
    ∀ acc : List (Nat × List String), (acc.map Prod.fst).Nodup →
      ((pairs.foldl (fun acc p => addToCluster acc p.1 p.2) acc).map
          Prod.fst).Nodup ∧
      (∀ x ∈ (pairs.foldl (fun acc p => addToCluster acc p.1 p.2) acc).map
          Prod.fst, x ∈ acc.map Prod.fst ∨ x ∈ pairs.map Prod.fst) := by
  induction pairs with
  | nil =>
    intro acc hacc
    exact ⟨hacc, fun x hx => Or.inl hx⟩
  | cons p ps ih =>
    intro acc hacc
    simp only [List.foldl_cons]
    obtain ⟨hnd, hsub⟩ := ih (addToCluster acc p.1 p.2)
      (addToCluster_keys_nodup acc p.1 p.2 hacc)
    refine ⟨hnd, ?_⟩
    intro x hx
    rcases hsub x hx with hx' | hx'
    · rcases addToCluster_keys_sub acc p.1 p.2 x hx' with h' | h'
      · exact Or.inl h'
      · exact Or.inr (by simp [h'])
    · exact Or.inr (by simp [hx'])

theorem nodup_lt_length_le {l : List Nat} (hnd : l.Nodup) {m : Nat}
    (hlt : ∀ x ∈ l, x < m) : l.length ≤ m := by
  rw [← List.toFinset_card_of_nodup hnd]
  have hsub : l.toFinset ⊆ Finset.range m := fun x hx =>
    Finset.mem_range.mpr (hlt x (List.mem_toFinset.mp hx))
  simpa using Finset.card_le_card hsub

/-- Unfolding of `get_paper_clusters` on a corpus with at least one
positive-dimensional embedding. -/
theorem get_paper_clusters_eq (s : Store) (k : Nat)
    (h1 : ¬(s.embeddings.map Prod.fst).length = 0)
    (h2 : ¬(s.embeddings.map Prod.snd).all List.isEmpty = true) :
    get_paper_clusters s k =
      groupByLabel ((kmeans_labels (s.embeddings.map Prod.snd)
        (if (s.embeddings.map Prod.fst).length < k
         then (s.embeddings.map Prod.fst).length else k)).zip
        (s.embeddings.map Prod.fst)) := by
  simp only [get_paper_clusters]
  rw [if_neg h1, if_neg h2]

/-- Claim C3.  With at least one cluster requested and uniformly
positive-dimensional embeddings (the spec's data-model invariant) and
distinct ids (a `dict` guarantee), `get_paper_clusters` returns the empty
mapping on an empty corpus, uses effective `k = min k n`, and its clusters
form an exact partition of the input ids: their members are a permutation of
the ids, every id occurs in exactly one cluster (count 1 overall), and there
are at most `min k n` clusters. -/
theorem get_paper_clusters_partition (s : Store) (k D : Nat)
    (hk : 1 ≤ k) (hD : 0 < D)
    (hdim : ∀ e ∈ s.embeddings, (Prod.snd e).length = D)
    (hnd : (s.embeddings.map Prod.fst).Nodup) :
    (s.embeddings = [] → get_paper_clusters s k = []) ∧
    ((get_paper_clusters s k).flatMap Prod.snd).Perm
      (s.embeddings.map Prod.fst) ∧
    (∀ pid ∈ s.embeddings.map Prod.fst,
      ((get_paper_clusters s k).flatMap Prod.snd).count pid = 1) ∧
    (get_paper_clusters s k).length ≤ min k s.embeddings.length := by
  by_cases hemp : s.embeddings = []
  · have hz : get_paper_clusters s k = [] := by
      simp [get_paper_clusters, hemp]
    refine ⟨fun _ => hz, ?_, ?_, ?_⟩
    · simp [hz, hemp]
    · simp [hemp]
    · simp [hz]
  · have h1 : ¬(s.embeddings.map Prod.fst).length = 0 := by
      simpa using hemp
    have h2 : ¬(s.embeddings.map Prod.snd).all List.isEmpty = true := by
      intro hall
      obtain ⟨e, he⟩ := List.exists_mem_of_ne_nil s.embeddings hemp
      have : e.2.isEmpty = true :=
        List.all_eq_true.mp hall e.2 (List.mem_map.mpr ⟨e, he, rfl⟩)
      have hlen := hdim e he
      rw [List.isEmpty_iff] at this
      rw [this] at hlen
      simp at hlen
      omega
    have heq := get_paper_clusters_eq s k h1 h2
    have hn : 0 < s.embeddings.length := List.length_pos.mpr hemp
    have hkeff1 : 1 ≤ (if (s.embeddings.map Prod.fst).length < k
        then (s.embeddings.map Prod.fst).length else k) := by
      simp only [List.length_map]
      split <;> omega
    have hpts : s.embeddings.map Prod.snd ≠ [] := by
      simpa using hemp
    have hlablen : (kmeans_labels (s.embeddings.map Prod.snd)
        (if (s.embeddings.map Prod.fst).length < k
         then (s.embeddings.map Prod.fst).length else k)).length =
        s.embeddings.length := by
      rw [kmeans_labels_length]
      simp
    have hperm : ((get_paper_clusters s k).flatMap Prod.snd).Perm
        (s.embeddings.map Prod.fst) := by
      rw [heq]
      refine (groupByLabel_flatten_perm _).trans ?_
      rw [List.map_snd_zip]
      rw [hlablen]
      simp
    refine ⟨fun h => absurd h hemp, hperm, ?_, ?_⟩
    · intro pid hpid
      rw [hperm.count_eq pid]
      exact List.count_eq_one_of_mem hnd hpid
    · rw [heq]
      have hkeys := groupFold_keys ((kmeans_labels (s.embeddings.map Prod.snd)
        (if (s.embeddings.map Prod.fst).length < k
         then (s.embeddings.map Prod.fst).length else k)).zip
        (s.embeddings.map Prod.fst)) [] (by simp)
      obtain ⟨hknd, hksub⟩ := hkeys
      have hlt : ∀ x ∈ (groupByLabel ((kmeans_labels
          (s.embeddings.map Prod.snd)
          (if (s.embeddings.map Prod.fst).length < k
           then (s.embeddings.map Prod.fst).length else k)).zip
          (s.embeddings.map Prod.fst))).map Prod.fst,
          x < min k s.embeddings.length := by
        intro x hx
        rcases hksub x hx with hx' | hx'
        · simp at hx'
        · have hxmem : x ∈ kmeans_labels (s.embeddings.map Prod.snd)
              (if (s.embeddings.map Prod.fst).length < k
               then (s.embeddings.map Prod.fst).length else k) := by
            rw [List.map_fst_zip] at hx'
            · exact hx'
            · rw [hlablen]
              simp
          have := kmeans_labels_lt (s.embeddings.map Prod.snd) _ hkeff1
            hpts x hxmem
          simp only [List.length_map] at this ⊢
          revert this
          split <;> omega
      have hlen := nodup_lt_length_le hknd hlt
      simpa using hlen

/-- Claim C3, witness.  The hypotheses hold on the three-document
one-dimensional corpus with `k = 2`, and the partition property follows. -/
theorem get_paper_clusters_partition_witness :
    (1 ≤ 2 ∧ 0 < 1 ∧ (∀ e ∈ sThree.embeddings, (Prod.snd e).length = 1) ∧
      (sThree.embeddings.map Prod.fst).Nodup) ∧
    ((get_paper_clusters sThree 2).flatMap Prod.snd).Perm
      (sThree.embeddings.map Prod.fst) :=
  ⟨⟨by omega, by omega, by decide, by decide⟩,
    (get_paper_clusters_partition sThree 2 1 (by omega) (by omega) (by decide)
      (by decide)).2.1⟩

/-! ### C4 — result cache memoization -/

theorem cacheLookup_append_self (c : ResultCache) (key p : String)
    (h : cacheLookup c key = none) :
    cacheLookup { entries := c.entries ++ [(key, p)] } key = some p := by
  unfold cacheLookup at *
  have hfind : c.entries.find? (fun e => e.1 = key) = none := by
    cases hf : c.entries.find? (fun e => e.1 = key) with
    | none => rfl
    | some x =>
      rw [hf] at h
      simp at h
  rw [List.find?_append, hfind]
  simp [List.find?_cons]

/-- Claim C4.  `getOrCompute`: a hit returns the stored payload unchanged
without invoking the compute function; a miss invokes it, persists the result
under the key, and returns it; and a second call with the same key (whatever
compute function it carries) returns the identical payload without invoking
its compute function. -/
theorem get_or_compute_spec (c : ResultCache) (key : String)
    (f g : Unit → String) :
    (∀ p, cacheLookup c key = some p → get_or_compute c key f = (p, c, false)) ∧
    (cacheLookup c key = none →
      get_or_compute c key f =
        (f (), { entries := c.entries ++ [(key, f ())] }, true) ∧
      cacheLookup { entries := c.entries ++ [(key, f ())] } key =
        some (f ())) ∧
    ((get_or_compute (get_or_compute c key f).2.1 key g).1 =
        (get_or_compute c key f).1 ∧
      (get_or_compute (get_or_compute c key f).2.1 key g).2.2 = false) := by
  refine ⟨?_, ?_, ?_⟩
  · intro p hp
    unfold get_or_compute
    rw [hp]
  · intro h
    unfold get_or_compute
    rw [h]
    exact ⟨rfl, cacheLookup_append_self c key (f ()) h⟩
  · cases h : cacheLookup c key with
    | some p =>
      have h1 : get_or_compute c key f = (p, c, false) := by
        unfold get_or_compute
        rw [h]
      have h2 : get_or_compute c key g = (p, c, false) := by
        unfold get_or_compute
        rw [h]
      rw [h1]
      simp [h2]
    | none =>
      have h1 : get_or_compute c key f =
          (f (), { entries := c.entries ++ [(key, f ())] }, true) := by
        unfold get_or_compute
        rw [h]
      have hl := cacheLookup_append_self c key (f ()) h
      have h2 : get_or_compute { entries := c.entries ++ [(key, f ())] }
          key g = (f (), { entries := c.entries ++ [(key, f ())] }, false) := by
        unfold get_or_compute
        rw [hl]
      rw [h1]
      simp [h2]

/-- Claim C4, witness.  On a cache already holding `"v"` under `"k"`, the hit
path returns `"v"` unchanged and reports the compute function not invoked. -/
theorem get_or_compute_witness :
    cacheLookup cacheKV keyK = some strV ∧
    get_or_compute cacheKV keyK (fun _ => strW) = (strV, cacheKV, false) :=
  ⟨rfl, (get_or_compute_spec cacheKV keyK (fun _ => strW)
    (fun _ => strW)).1 strV rfl⟩

/-! ### C5 — determinism and the unseeded sample -/

/-- Claim C6, counterexample.  A single-document query whose target has no
embedding returns the plain empty list — the same value a present target
with no candidates returns — and a missing target paper yields an ordinary
empty `GraphData`; no caller-visible NotFound error exists in either return
type. -/
theorem missing_target_cx :
    find_similar_papers sMissTarget idA 10 = [] ∧
    get_embedding_by_id sMissTarget idA = none ∧
    find_similar_papers sOnlyA idA 10 = [] ∧
    (get_embedding_by_id sOnlyA idA).isSome = true ∧
    generate_network_data sNone idA 10 =
      { nodes := [], edges := [], clusters := [] } := by
  refine ⟨?_, by decide, ?_, by decide, by decide⟩
  · norm_num [find_similar_papers, get_embedding_by_id, sMissTarget, idA,
      List.find?_cons]
    simp
  · norm_num [find_similar_papers, get_embedding_by_id, get_paper_by_id,
      sOnlyA, idA, stableSort, insertSorted, List.filterMap_cons,
      List.find?_cons, pA]

/-- Claim C6, amended.  A missing *target* makes the operation return an
empty result (empty list for `find_similar_papers`, empty `GraphData` for
`generate_network_data`) rather than an error value, while a missing
embedding or missing metadata for a *non-target* id merely contributes
nothing: every returned entry has both a stored embedding and stored
metadata. -/
theorem missing_embedding_policy (s : Store) (pid : String) (k : Nat) :
    (get_embedding_by_id s pid = none → find_similar_papers s pid k = []) ∧
    (get_paper_by_id s pid = none →
      generate_network_data s pid k =
        { nodes := [], edges := [], clusters := [] }) ∧
    (∀ r ∈ find_similar_papers s pid k,
      (get_embedding_by_id s r.paper_id).isSome = true ∧
      (get_paper_by_id s r.paper_id).isSome = true) := by
  refine ⟨fun h => find_similar_papers_none s pid k h, ?_, ?_⟩
  · intro h
    unfold generate_network_data
    rw [h]
  · intro r hr
    cases hemb : get_embedding_by_id s pid with
    | none =>
      rw [find_similar_papers_none s pid k hemb] at hr
      simp at hr
    | some tv =>
      rw [find_similar_papers_eq s pid k tv hemb] at hr
      obtain ⟨e, he, hge⟩ := List.mem_filterMap.mp hr
      obtain ⟨p, hp, hpr⟩ := Option.map_eq_some'.mp hge
      have hid : r.paper_id = e.1 := by rw [← hpr]
      have he2 : e ∈ (s.embeddings.filter (fun e => e.1 ≠ pid)).map
          (fun e => (e.1, cosine_similarity tv e.2)) :=
        (stableSort_perm _ _).mem_iff.mp (List.mem_of_mem_take he)
      obtain ⟨x, hx, hxe⟩ := List.mem_map.mp he2
      have hxmem : x ∈ s.embeddings := List.mem_of_mem_filter hx
      have hid' : r.paper_id = x.1 := by
        rw [hid, ← hxe]
      constructor
      · rw [hid']
        have hfs : (s.embeddings.find? (fun e2 => e2.1 = x.1)).isSome = true :=
          List.find?_isSome.mpr ⟨x, hxmem, by simp⟩
        unfold get_embedding_by_id
        cases hf : s.embeddings.find? (fun e2 => e2.1 = x.1) with
        | none =>
          rw [hf] at hfs
          simp at hfs
        | some y => rfl
      · rw [hid]
        simp [hp]

/-- Claim C6, amended, witness.  On the corpus where the target `A` has no
embedding, `find_similar_papers` returns the empty list. -/
theorem missing_embedding_policy_witness :
    get_embedding_by_id sMissTarget idA = none ∧
    find_similar_papers sMissTarget idA 10 = [] :=
  ⟨by decide, (missing_embedding_policy sMissTarget idA 10).1 (by decide)⟩

/-! ### C7 — projection output shape and fallback flag -/

/-- Claim C7, counterexample.  The projection emits one row per paper *with
an embedding*, not one per input id: on `sNoEmbB` (papers `A`, `B`; only `A`
embedded) the output covers only `A`.  And the fallback path draws its
coordinates from the unseeded global generator — two hidden generator states
give different outputs — with no field of the row type flagging the result
as a fallback. -/
theorem tsne_missing_row_cx :
    (generate_tsne_coordinates tsneZero sNoEmbB 0).map (fun c => c.paper_id) =
      [idA] ∧
    sNoEmbB.papers.map Paper.id = [idA, idB] ∧
    generate_tsne_coordinates tsneZero sNoEmbAll 0 ≠
      generate_tsne_coordinates tsneZero sNoEmbAll 1 := by
  refine ⟨?_, by decide, ?_⟩
  · norm_num [generate_tsne_coordinates, tsneZero, sNoEmbB,
      get_embedding_by_id, get_paper_by_id, idA, pA, pB, List.filterMap_cons,
      List.find?_cons]
    simp
  · norm_num [generate_tsne_coordinates, tsneZero, sNoEmbAll,
      fallback_coordinates, fallbackAux, pseudoNormal, get_embedding_by_id,
      get_paper_by_id, pA, List.find?_cons]

theorem fallbackAux_map_id (rng : Nat) :
    ∀ (ps : List Paper) (i : Nat),
      (fallbackAux rng ps i).map (fun c => c.paper_id) = ps.map Paper.id := by
  intro ps
  induction ps with
  | nil => intro i; rfl
  | cons p rest ih =>
    intro i
    simp only [fallbackAux, List.map_cons]
    rw [ih (i + 1)]

/-- Claim C7, amended.  For any length-preserving projection kernel, the
output has exactly one row per paper that has *both* an embedding and
metadata (in corpus order); when no paper has an embedding, the fallback
instead emits one row per paper of the corpus (with generator-dependent
coordinates and no distinguishing flag). -/
theorem tsne_coordinate_policy (tsne : List Vec → List (ℚ × ℚ)) (s : Store)
    (rng : Nat) (htsne : ∀ l, (tsne l).length = l.length) :
    (s.papers.filter (fun p => (get_embedding_by_id s p.id).isSome) = [] →
      (generate_tsne_coordinates tsne s rng).map (fun c => c.paper_id) =
        s.papers.map Paper.id) ∧
    (s.papers.filter (fun p => (get_embedding_by_id s p.id).isSome) ≠ [] →
      (generate_tsne_coordinates tsne s rng).map (fun c => c.paper_id) =
        (s.papers.filter
          (fun p => (get_embedding_by_id s p.id).isSome)).map Paper.id) := by
  constructor
  · intro h
    unfold generate_tsne_coordinates
    rw [if_pos h]
    exact fallbackAux_map_id rng s.papers 0
  · intro h
    unfold generate_tsne_coordinates
    rw [if_neg h]
    have hgen : ∀ zl : List (Paper × (ℚ × ℚ)),
        (∀ pc ∈ zl, (get_paper_by_id s pc.1.id).isSome = true) →
        (zl.filterMap (fun pc =>
          (get_paper_by_id s pc.1.id).map (fun q =>
            { paper_id := pc.1.id, tsne_x := pc.2.1, tsne_y := pc.2.2,
              subject_areas := q.subject_areas, title := q.title,
              authors := q.authors.map (fun a => a.name) : TsneCoord }))).map
          (fun c => c.paper_id) = zl.map (fun pc => pc.1.id) := by
      intro zl
      induction zl with
      | nil => intro _; rfl
      | cons pc rest ih =>
        intro hall
        have hhead := hall pc (by simp)
        cases hq : get_paper_by_id s pc.1.id with
        | none =>
          rw [hq] at hhead
          simp at hhead
        | some q =>
          simp only [List.filterMap_cons, hq, Option.map_some', List.map_cons]
          rw [ih (fun x hx => hall x (by simp [hx]))]
    rw [hgen]
    · have hlen : (s.papers.filter
          (fun p => (get_embedding_by_id s p.id).isSome)).length ≤
          (tsne ((s.papers.filter
            (fun p => (get_embedding_by_id s p.id).isSome)).map
              (fun p => (get_embedding_by_id s p.id).getD []))).length := by
        rw [htsne]
        simp
      have := List.map_fst_zip (s.papers.filter
          (fun p => (get_embedding_by_id s p.id).isSome))
        (tsne ((s.papers.filter
          (fun p => (get_embedding_by_id s p.id).isSome)).map
            (fun p => (get_embedding_by_id s p.id).getD []))) hlen
      calc ((s.papers.filter
              (fun p => (get_embedding_by_id s p.id).isSome)).zip
            (tsne ((s.papers.filter
              (fun p => (get_embedding_by_id s p.id).isSome)).map
                (fun p => (get_embedding_by_id s p.id).getD [])))).map
            (fun pc => pc.1.id)
          = (((s.papers.filter
              (fun p => (get_embedding_by_id s p.id).isSome)).zip
            (tsne ((s.papers.filter
              (fun p => (get_embedding_by_id s p.id).isSome)).map
                (fun p => (get_embedding_by_id s p.id).getD [])))).map
            Prod.fst).map Paper.id := by
            rw [List.map_map]
            rfl
        _ = _ := by rw [this]
    · intro pc hpc
      have hmem := (List.of_mem_zip hpc).1
      have hmem' : pc.1 ∈ s.papers := List.mem_of_mem_filter hmem
      have hfs : (s.papers.find? (fun p => p.id = pc.1.id)).isSome = true :=
        List.find?_isSome.mpr ⟨pc.1, hmem', by simp⟩
      unfold get_paper_by_id
      exact hfs

/-- Claim C7, amended, witness.  On the corpus where only `A` is embedded,
the projection (with a length-preserving kernel) covers exactly the embedded
papers. -/
theorem tsne_coordinate_policy_witness :
    (∀ l, (tsneZero l).length = l.length) ∧
    (generate_tsne_coordinates tsneZero sNoEmbB 0).map (fun c => c.paper_id) =
      (sNoEmbB.papers.filter
        (fun p => (get_embedding_by_id sNoEmbB p.id).isSome)).map Paper.id :=
  ⟨fun l => by simp [tsneZero],
    (tsne_coordinate_policy tsneZero sNoEmbB 0
      (fun l => by simp [tsneZero])).2 (by decide)⟩

/-! ### C8 — zero-norm guard -/

/-- Claim C8.  A zero-norm vector has similarity `0` with every other vector
(sklearn's zero-norm guard, embedded in `cosine_similarity`), and when the
target embedding of `find_similar_papers` is a zero vector every returned
score is `0` — the similarity function is total over stored embeddings. -/
theorem zero_norm_similarity (s : Store) (pid : String) (k : Nat) (tv : Vec)
    (hemb : get_embedding_by_id s pid = some tv) (hz : ∀ x ∈ tv, x = 0) :
    (∀ b, cosine_similarity tv b = 0 ∧ cosine_similarity b tv = 0) ∧
    (∀ r ∈ find_similar_papers s pid k, r.similarity_score = 0) := by
  refine ⟨fun b => cosine_similarity_zero_left hz b, ?_⟩
  intro r hr
  rw [find_similar_papers_eq s pid k tv hemb] at hr
  obtain ⟨e, he, hge⟩ := List.mem_filterMap.mp hr
  obtain ⟨p, _, hpr⟩ := Option.map_eq_some'.mp hge
  have hscore : r.similarity_score = e.2 := by rw [← hpr]
  have he2 : e ∈ (s.embeddings.filter (fun e => e.1 ≠ pid)).map
      (fun e => (e.1, cosine_similarity tv e.2)) :=
    (stableSort_perm _ _).mem_iff.mp (List.mem_of_mem_take he)
  obtain ⟨x, _, hxe⟩ := List.mem_map.mp he2
  rw [hscore, ← hxe]
  exact (cosine_similarity_zero_left hz x.2).1

/-- Claim C8, witness.  On the corpus whose target `A` carries the zero
vector, every similarity returned for `A` is `0`. -/
theorem zero_norm_similarity_witness :
    get_embedding_by_id sZero idA = some [0, 0] ∧
    (∀ x ∈ ([0, 0] : Vec), x = 0) ∧
    (∀ r ∈ find_similar_papers sZero idA 5, r.similarity_score = 0) :=
  ⟨rfl, by decide,
    (zero_norm_similarity sZero idA 5 [0, 0] rfl (by decide)).2⟩

/-! ### C9 — no thundering-herd guard -/

/-- Claim C9, counterexample.  The cache code of `get_tsne_coordinates` takes
no lock between its cache check and its write, so the interleaving in which
both requests check the empty cache before either computes is reachable and
ends with the expensive computation executed twice — refuting "computeFn is
invoked at most once per key". -/
theorem herd_duplicate_computation_cx :
    ∃ s : HerdState, herdReaches strV herdInit s ∧
      s.pc1 = 2 ∧ s.pc2 = 2 ∧ s.computes = 2 := by
  refine ⟨⟨some strV, 2, none, 2, none, 2⟩, ?_, rfl, rfl, rfl⟩
  refine Relation.ReflTransGen.head (herd_step.check1 herdInit rfl) ?_
  refine Relation.ReflTransGen.head (herd_step.check2 _ rfl) ?_
  refine Relation.ReflTransGen.head (herd_step.miss1 _ rfl rfl) ?_
  exact Relation.ReflTransGen.single (herd_step.miss2 _ rfl rfl)

theorem herd_step_inv {v : String} {a b : HerdState} (h : herd_step v a b) :
    b.computes + pendingCount b ≤ a.computes + pendingCount a := by
  cases h with
  | check1 hs =>
    simp [pendingCount, hs]
  | hit1 w hs hobs =>
    simp [pendingCount, hs]
  | miss1 hs hobs =>
    simp [pendingCount, hs]
    omega
  | check2 hs =>
    simp [pendingCount, hs]
  | hit2 w hs hobs =>
    simp [pendingCount, hs]
  | miss2 hs hobs =>
    simp [pendingCount, hs]
    omega

/-- Claim C9, amended.  The unguarded check-compute-write sequence bounds the
computation count only by the number of concurrent requests: with two
requests for the same uncached key the compute function runs at most twice —
at most once per request, not at most once per key (the counterexample shows
twice is reached). -/
theorem herd_at_most_one_per_request (v : String) (s : HerdState)
    (h : herdReaches v herdInit s) : s.computes ≤ 2 := by
  have key : s.computes + pendingCount s ≤ 2 := by
    induction h with
    | refl => simp [herdInit, pendingCount]
    | tail hab hbc ih => exact le_trans (herd_step_inv hbc) ih
  omega

/-- Claim C9, amended, witness.  The bound instantiated at the initial
state. -/
theorem herd_at_most_one_witness : herdInit.computes ≤ 2 :=
  herd_at_most_one_per_request strV herdInit Relation.ReflTransGen.refl

/-! ### C10 — truncation happens before the metadata filter -/

/-- Claim C10.  `find_similar_papers` truncates the ranking to `limit`
*before* dropping ids whose paper metadata is missing: on `sTrunc` the
top-ranked candidate `B` (similarity `1`) has no metadata, so `limit = 1`
returns the empty list even though `C` has both an embedding and metadata
(and is returned once `limit = 2` reaches it) — dropped entries are not
backfilled. -/
theorem truncate_before_metadata_filter :
    find_similar_papers sTrunc idA 1 = [] ∧
    (get_embedding_by_id sTrunc idC).isSome = true ∧
    (get_paper_by_id sTrunc idC).isSome = true ∧
    idC ≠ idA ∧
    (find_similar_papers sTrunc idA 2).map
      (fun r => (r.paper_id, r.similarity_score)) = [(idC, 1/2)] := by
  refine ⟨?_, by decide, by decide, by decide, ?_⟩
  · norm_num [find_similar_papers, get_embedding_by_id, get_paper_by_id,
      sTrunc, idA, cosine_similarity, dot, stableSort, insertSorted, pA, pC,
      List.filterMap_cons, List.find?_cons]
    simp
  · norm_num [find_similar_papers, get_embedding_by_id, get_paper_by_id,
      sTrunc, idA, idC, cosine_similarity, dot, stableSort, insertSorted,
      pA, pC, List.filterMap_cons, List.find?_cons]
    simp

end MiccaiVis
